import Mathlib

/-!
Verification of the Socratic Debate Coach workflow engine.

Shallow embedding of the repository:
  - src/models/state.py     : the DebateSession state schema and its reducers
  - src/agents/nodes.py     : the seven node functions (their state reads and
    the per-field updates they return; each node's LLM call is an opaque
    external task, so its text output enters as a parameter / oracle value)
  - src/graph/debate_graph.py : the graph wiring (nodes, edges, the three
    conditional-edge attachments, should_continue, MAX_ROUNDS)
  - src/main.py             : the initial session built by run_session

The execution engine itself (LangGraph's superstep scheduler, with its
fan-out of parallel nodes, fan-in fold of their updates, conditional-edge
routing, per-superstep target deduplication and checkpointing) is an external
library, not code of this repository; it is modelled here following the
behaviour the spec describes (sections 2, 4.3, 4.4): all nodes of a superstep
read the same snapshot, their updates are folded in declared node order, the
conditional edges attached to completed nodes are evaluated against the folded
state, targets are scheduled once per superstep, and a checkpoint is the state
after each completed superstep.
-/

/-! ## Data model (src/models/state.py) -/

/-- Role of a dialogue message: HumanMessage or AIMessage in the source. -/
inductive Role where
  | user
  | agent
deriving DecidableEq

/-- A run-level dialogue message. Node functions in src/agents/nodes.py build
messages from a role and content only (no explicit id); the add_messages
reducer assigns each such id-less message a fresh unique id, so at run level
the dialogue_history merge behaves as plain list append (see Message and
add_messages below for the id-bearing reducer itself). -/
structure ChatMsg where
  role : Role
  content : String
deriving DecidableEq

/-- A parsed fallacy entry as the fallacy detector's JSON yields it
(fallacy_name, quote, explanation, severity); the severity is an arbitrary
string, nothing in src/models/state.py constrains it. -/
structure Fallacy where
  fallacy_name : String
  quote : String
  explanation : String
  severity : String
deriving DecidableEq

/-- A parsed score JSON object from the argument scorer's LLM output. -/
structure ScoreJson where
  clarity : Int
  evidence : Int
  logic : Int
  originality : Int
  persuasiveness : Int
  total : Int
  summary : String
deriving DecidableEq

/-- A stored score card: the scorer stores the round number together with the
parsed score fields. -/
structure ScoreEntry where
  round : Nat
  clarity : Int
  evidence : Int
  logic : Int
  originality : Int
  persuasiveness : Int
  total : Int
  summary : String
deriving DecidableEq

/-- The DebateSession TypedDict of src/models/state.py. -/
structure DebateSession where
  topic : String
  user_position : String
  round_number : Nat
  dialogue_history : List ChatMsg
  logical_fallacies_found : List Fallacy
  argument_scores : List ScoreEntry
  devil_advocate_args : List String
  socratic_questions : List String
  coaching_tips : List String
  verdict : String
deriving DecidableEq

/-- The list-append reducer of src/models/state.py (def _append): plain
concatenation, no validation of the appended elements. -/
def _append {α : Type} (existing new : List α) : List α :=
  existing ++ new

/-- A per-field update as a node returns it: only the fields present are
merged (absent list fields are empty, absent scalar fields are none). -/
structure SessionUpdate where
  round_number : Option Nat := none
  dialogue_history : List ChatMsg := []
  logical_fallacies_found : List Fallacy := []
  argument_scores : List ScoreEntry := []
  devil_advocate_args : List String := []
  socratic_questions : List String := []
  coaching_tips : List String := []
  verdict : Option String := none
deriving DecidableEq

/-- Merge one update into the session according to each field's declared
reducer (src/models/state.py): last-write-wins for round_number and verdict,
_append for the accumulating lists, and the dialogue_history reducer (which
for the id-less messages the nodes produce is plain append; see ChatMsg). -/
def applyUpdate (s : DebateSession) (u : SessionUpdate) : DebateSession :=
  { s with
    round_number := u.round_number.getD s.round_number
    dialogue_history := _append s.dialogue_history u.dialogue_history
    logical_fallacies_found := _append s.logical_fallacies_found u.logical_fallacies_found
    argument_scores := _append s.argument_scores u.argument_scores
    devil_advocate_args := _append s.devil_advocate_args u.devil_advocate_args
    socratic_questions := _append s.socratic_questions u.socratic_questions
    coaching_tips := _append s.coaching_tips u.coaching_tips
    verdict := u.verdict.getD s.verdict }

/-! ## String helpers mirroring the Python string operations used by the
nodes (str.split, str.strip, str.startswith, str.isdigit), written over the
character list of a String so they evaluate in the kernel. -/

/-- Split a character list at every occurrence of c (Python str.split
semantics: separators are not kept, empty pieces are). -/
def splitOnChar (c : Char) : List Char → List (List Char)
  | [] => [[]]
  | x :: xs =>
    match splitOnChar c xs with
    | [] => [[x]]
    | y :: ys => if x = c then [] :: y :: ys else (x :: y) :: ys

/-- Python content.split of a newline. -/
def splitLines (s : String) : List String :=
  (splitOnChar '\n' s.data).map String.mk

/-- Strip leading and trailing whitespace from a character list. -/
def trimChars (cs : List Char) : List Char :=
  ((cs.dropWhile Char.isWhitespace).reverse.dropWhile Char.isWhitespace).reverse

/-- Python str.strip. -/
def trimStr (s : String) : String :=
  String.mk (trimChars s.data)

/-- Python str.startswith for a single piece. -/
def strStartsWith (s p : String) : Bool :=
  List.isPrefixOf p.data s.data

/-! ## Node functions (src/agents/nodes.py)

Each node receives the full session snapshot and returns only the fields it
updates. The LLM response text each node would obtain from its external call
is passed in as an explicit argument. -/

/-- NODE 1, intake_node: sets round 1 and logs the user's position as the
first message of dialogue_history. -/
def intake_node (s : DebateSession) : SessionUpdate :=
  { round_number := some 1
    dialogue_history := [⟨Role.user, s.user_position⟩] }

/-- NODE 2, fallacy_detector_node: stores the parsed fallacy list (already []
when the LLM output did not parse) and an AI message echoing the analysis;
fallaciesText stands for the json.dumps rendering of the parsed list. -/
def fallacy_detector_node (fallacies : List Fallacy) (fallaciesText : String) : SessionUpdate :=
  { logical_fallacies_found := fallacies
    dialogue_history := [⟨Role.agent, "[Fallacy Analysis] " ++ fallaciesText⟩] }

/-- NODE 3, devil_advocate_node: stores the counter-argument text as one list
entry and as an AI message. -/
def devil_advocate_node (counter_args : String) : SessionUpdate :=
  { devil_advocate_args := [counter_args]
    dialogue_history := [⟨Role.agent, "[Counter-Arguments]\n" ++ counter_args⟩] }

/-- Line filter of socratic_questioner_node: line.strip() is non-empty and its
first character is a digit or the stripped line starts with a dash. -/
def isQuestionLine (l : String) : Bool :=
  match l.data with
  | [] => false
  | c :: _ => c.isDigit || strStartsWith l "-"

/-- Question list parsed out of the LLM's numbered-list text, as
socratic_questioner_node computes it. -/
def parseQuestions (questions_text : String) : List String :=
  ((splitLines questions_text).map trimStr).filter isQuestionLine

/-- NODE 4, socratic_questioner_node. -/
def socratic_questioner_node (questions_text : String) : SessionUpdate :=
  { socratic_questions := parseQuestions questions_text
    dialogue_history := [⟨Role.agent, "[Socratic Questions]\n" ++ questions_text⟩] }

/-- NODE 5, argument_scorer_node: stores the parsed score together with the
snapshot's round_number; scoreText stands for json.dumps(score). -/
def argument_scorer_node (s : DebateSession) (score : ScoreJson) (scoreText : String) :
    SessionUpdate :=
  { argument_scores := [⟨s.round_number, score.clarity, score.evidence, score.logic,
      score.originality, score.persuasiveness, score.total, score.summary⟩]
    dialogue_history :=
      [⟨Role.agent, "[Score Round " ++ toString s.round_number ++ "] " ++ scoreText⟩] }

/-- The simulated refined user argument increment_round_node builds. -/
def refinedArgument (new_round : Nat) (topic user_position : String) : String :=
  "[Round " ++ toString new_round ++ " — Refined position] " ++
    "Building on my earlier argument about " ++ topic ++ ": " ++ user_position ++
    " Furthermore, the evidence suggests this is inevitable."

/-- NODE 6, increment_round_node: advances the round counter by one and logs
the refined argument as a new human message. -/
def increment_round_node (s : DebateSession) : SessionUpdate :=
  { round_number := some (s.round_number + 1)
    dialogue_history :=
      [⟨Role.user, refinedArgument (s.round_number + 1) s.topic s.user_position⟩] }

/-- The tip-line starters final_coach_node filters on: a line whose stripped
form starts with one of these is kept as a coaching tip. -/
def tipStarters : List String :=
  ["•", "-", "Tip", "1.", "2.", "3."]

/-- Whether a (stripped) report line is kept as a coaching tip. -/
def isTipLine (l : String) : Bool :=
  tipStarters.any (fun pre => strStartsWith l pre)

/-- The tip lines extracted from the final report, before truncation. -/
def extractTips (report : String) : List String :=
  ((splitLines report).map trimStr).filter isTipLine

/-- NODE 7, final_coach_node: writes the whole report as the verdict, the
first five extracted tip lines as coaching_tips, and a final AI message. -/
def final_coach_node (report : String) : SessionUpdate :=
  { verdict := some report
    coaching_tips := (extractTips report).take 5
    dialogue_history := [⟨Role.agent, "[Final Report]\n" ++ report⟩] }

/-! ## Graph definition (src/graph/debate_graph.py) -/

/-- The seven graph nodes added by build_debate_graph. -/
inductive NodeId where
  | intake
  | fallacy_detector
  | devil_advocate
  | socratic_questioner
  | argument_scorer
  | increment_round
  | final_coach
deriving DecidableEq

/-- Number of debate rounds before final coaching (MAX_ROUNDS = 3). -/
def MAX_ROUNDS : Nat := 3

/-- The conditional edge function of src/graph/debate_graph.py. -/
def should_continue (s : DebateSession) : String :=
  if s.round_number ≥ MAX_ROUNDS then "finalize" else "continue"

/-- Branch map shared by the three add_conditional_edges calls. -/
def branchTarget : String → Option NodeId
  | "continue" => some NodeId.increment_round
  | "finalize" => some NodeId.final_coach
  | _ => none

/-- The unconditional out-edges declared by build_debate_graph, in declaration
order; final_coach's only out-edge goes to END, represented by the empty
list. -/
def successors : NodeId → List NodeId
  | NodeId.intake => [NodeId.fallacy_detector]
  | NodeId.fallacy_detector =>
      [NodeId.devil_advocate, NodeId.socratic_questioner, NodeId.argument_scorer]
  | NodeId.increment_round => [NodeId.fallacy_detector]
  | _ => []

/-- The nodes to which add_conditional_edges attaches should_continue: the
source wires the conditional edge to each of the three parallel branches
(src/graph/debate_graph.py lines 111-134), not to a single barrier node. -/
def conditionalSources : List NodeId :=
  [NodeId.devil_advocate, NodeId.socratic_questioner, NodeId.argument_scorer]

/-- The fan-out group that runs in parallel after fallacy_detector. -/
def fanOutGroup : List NodeId :=
  [NodeId.devil_advocate, NodeId.socratic_questioner, NodeId.argument_scorer]

/-! ## Execution engine (modelled: LangGraph's superstep scheduler)

The engine is the external LangGraph library; the model below follows the
spec's description of it. One engine step runs every node of the current
frontier against the same session snapshot, folds their updates into the
session sequentially in declared node order, then computes the next frontier
from the unconditional edges plus one conditional-edge evaluation per
completed node that has the conditional edge attached, deduplicating targets
(a target triggered by several completed nodes is scheduled once). -/

/-- Deterministic task outputs: what each node's external LLM call returns,
indexed by the round in which the node runs. Fixing an Oracle fixes every
task output of a run, which is the spec's "identical deterministic task
outputs" premise. -/
structure Oracle where
  fallacies : Nat → List Fallacy
  fallaciesText : Nat → String
  counterArgs : Nat → String
  questionsText : Nat → String
  score : Nat → ScoreJson
  scoreText : Nat → String
  coachReport : String

/-- The update a given node produces from a session snapshot, with its LLM
output supplied by the oracle at the snapshot's round number. -/
def nodeUpdate (o : Oracle) (s : DebateSession) : NodeId → SessionUpdate
  | NodeId.intake => intake_node s
  | NodeId.fallacy_detector =>
      fallacy_detector_node (o.fallacies s.round_number) (o.fallaciesText s.round_number)
  | NodeId.devil_advocate => devil_advocate_node (o.counterArgs s.round_number)
  | NodeId.socratic_questioner => socratic_questioner_node (o.questionsText s.round_number)
  | NodeId.argument_scorer =>
      argument_scorer_node s (o.score s.round_number) (o.scoreText s.round_number)
  | NodeId.increment_round => increment_round_node s
  | NodeId.final_coach => final_coach_node o.coachReport

/-- Engine state: the current session and the frontier of nodes scheduled to
run in the next superstep (empty once the terminal node has run). -/
structure EngState where
  session : DebateSession
  frontier : List NodeId
deriving DecidableEq

/-- Fold of a completed superstep: every frontier node read the same snapshot
s, and their updates are applied sequentially in declared (frontier) order. -/
def foldStep (o : Oracle) (s : DebateSession) (frontier : List NodeId) : DebateSession :=
  frontier.foldl (fun acc n => applyUpdate acc (nodeUpdate o s n)) s

/-- First-occurrence deduplication of scheduled targets. -/
def dedupNodesFrom (seen : List NodeId) : List NodeId → List NodeId
  | [] => []
  | x :: xs => if x ∈ seen then dedupNodesFrom seen xs
               else x :: dedupNodesFrom (x :: seen) xs

/-- Deduplicate a target list, keeping first occurrences. -/
def dedupNodes (l : List NodeId) : List NodeId :=
  dedupNodesFrom [] l

/-- Targets a completed node activates: its unconditional successors, plus the
branch chosen by should_continue when the conditional edge is attached to
it. s is the folded session of the superstep just completed. -/
def outTargets (s : DebateSession) (n : NodeId) : List NodeId :=
  successors n ++
    (if n ∈ conditionalSources then (branchTarget (should_continue s)).toList else [])

/-- The next frontier after a superstep whose folded session is s. -/
def nextFrontier (s : DebateSession) (frontier : List NodeId) : List NodeId :=
  dedupNodes (frontier.foldr (fun n acc => outTargets s n ++ acc) [])

/-- One engine superstep; a state with an empty frontier is terminal and is
left unchanged. -/
def step (o : Oracle) (e : EngState) : EngState :=
  match e.frontier with
  | [] => e
  | _ =>
    let s := foldStep o e.session e.frontier
    { session := s, frontier := nextFrontier s e.frontier }

/-- How many times should_continue is evaluated when this frontier completes:
once per completed node that has the conditional edge attached to it. -/
def condEvalCount (frontier : List NodeId) : Nat :=
  (frontier.filter (fun n => decide (n ∈ conditionalSources))).length

/-- Occurrences of a node in a frontier. -/
def countNode (n : NodeId) (l : List NodeId) : Nat :=
  (l.filter (fun m => decide (m = n))).length

/-- The initial session built by run_session in src/main.py: all sequences
empty, round_number 0, verdict empty. -/
def initialSession (topic user_position : String) : DebateSession :=
  { topic := topic
    user_position := user_position
    round_number := 0
    dialogue_history := []
    logical_fallacies_found := []
    argument_scores := []
    devil_advocate_args := []
    socratic_questions := []
    coaching_tips := []
    verdict := "" }

/-- Initial engine state: the entry edge START -> intake schedules intake. -/
def initState (topic user_position : String) : EngState :=
  ⟨initialSession topic user_position, [NodeId.intake]⟩

/-- The run trajectory: the engine state after i supersteps. Checkpointing
writes exactly these states (one synchronous save after every completed
superstep), so traj o t p i is also the i-th checkpoint of the run. -/
def traj (o : Oracle) (t p : String) : Nat → EngState
  | 0 => initState t p
  | n + 1 => step o (traj o t p n)

/-- Round number the run holds after i supersteps (closed form). -/
def roundOf (i : Nat) : Nat :=
  if i = 0 then 0 else if i ≤ 3 then 1 else if i ≤ 6 then 2 else 3

/-- Frontier the run holds after i supersteps (closed form). -/
def frontierOf (i : Nat) : List NodeId :=
  if i = 0 then [NodeId.intake]
  else if i = 1 ∨ i = 4 ∨ i = 7 then [NodeId.fallacy_detector]
  else if i = 2 ∨ i = 5 ∨ i = 8 then
    [NodeId.devil_advocate, NodeId.socratic_questioner, NodeId.argument_scorer]
  else if i = 3 ∨ i = 6 then [NodeId.increment_round]
  else if i = 9 then [NodeId.final_coach]
  else []

/-- Verdict the run holds after i supersteps (closed form). -/
def verdictOf (o : Oracle) (i : Nat) : String :=
  if i ≤ 9 then "" else o.coachReport

/-- Coaching tips the run holds after i supersteps (closed form). -/
def tipsOf (o : Oracle) (i : Nat) : List String :=
  if i ≤ 9 then [] else (extractTips o.coachReport).take 5

/-! ## Failure semantics of a superstep

Modelled from the spec: the engine's failure handling (sections 4.3 step 4
and 7) is the external LangGraph scheduler, not code under src/. If any
member of the scheduled superstep fails, no update of the superstep — the
failed member's or a successful sibling's — is applied: the error is
surfaced with the failing node and the session is left as the last folded
checkpoint. failing lists the nodes whose external task fails. -/

/-- Modelled from the spec: fold of a superstep in which the nodes of
failing fail — an error naming the first failing member, or the ordinary
fold when no member fails. -/
def foldStepE (o : Oracle) (failing : List NodeId) (s : DebateSession)
    (frontier : List NodeId) : Except NodeId DebateSession :=
  match frontier.find? (fun n => decide (n ∈ failing)) with
  | some n => Except.error n
  | none => Except.ok (foldStep o s frontier)

/-- Modelled from the spec: one superstep with failure surfacing. -/
def stepE (o : Oracle) (failing : List NodeId) (e : EngState) : Except NodeId EngState :=
  match e.frontier with
  | [] => Except.ok e
  | _ =>
    match foldStepE o failing e.session e.frontier with
    | Except.error n => Except.error n
    | Except.ok s => Except.ok ⟨s, nextFrontier s e.frontier⟩

/-- The session the store holds after the superstep: the folded session on
success, the unchanged pre-step session (the last checkpoint) on failure. -/
def sessionAfterStepE (o : Oracle) (failing : List NodeId) (e : EngState) : DebateSession :=
  match stepE o failing e with
  | Except.error _ => e.session
  | Except.ok e2 => e2.session

/-! ## The fan-in barrier fold -/

/-- Lookup of one completed member's update in a completion-ordered list. -/
def lookupUpd (n : NodeId) : List (NodeId × SessionUpdate) → Option SessionUpdate
  | [] => none
  | (m, u) :: rest => if n = m then some u else lookupUpd n rest

/-- Modelled from the spec: the fan-in barrier fold (section 4.3 step 2).
completed lists the fan-out members with their updates in the order they
happened to complete; the fold applies the updates in declared node order
(the order of fanOutGroup), ignoring completion order. -/
def foldInDeclaredOrder (s : DebateSession)
    (completed : List (NodeId × SessionUpdate)) : DebateSession :=
  fanOutGroup.foldl (fun acc n =>
    match lookupUpd n completed with
    | some u => applyUpdate acc u
    | none => acc) s

/-! ## Resumption -/

/-- n engine supersteps from a given state: resuming from a checkpoint is
running the step loop from the checkpointed state with the same oracle. -/
def runN (o : Oracle) : Nat → EngState → EngState
  | 0, e => e
  | n + 1, e => runN o n (step o e)

/-! ## The dialogue_history reducer over id-bearing messages

Modelled from the spec: dialogue_history is merged by the external
add_messages reducer; per the spec (sections 3 and 4.1) it appends new
messages and de-duplicates by id — an incoming element whose id matches an
existing element replaces it in place rather than duplicating. -/

/-- An id-bearing dialogue message as the append-distinct-by-id reducer
sees it. -/
structure Message where
  id : String
  content : String
deriving DecidableEq

/-- Modelled from the spec: insert one incoming message — replace the first
existing message with the same id in place, append when no id matches. -/
def upsert : List Message → Message → List Message
  | [], m => [m]
  | x :: xs, m => if x.id = m.id then m :: xs else x :: upsert xs m

/-- Modelled from the spec: the add_messages merge of an incoming update
into the existing dialogue history. -/
def addMessages (existing incoming : List Message) : List Message :=
  incoming.foldl upsert existing

/-- The ids of a message list, in order. -/
def msgIds (l : List Message) : List String :=
  l.map Message.id

/-- The first entry of l carrying the id of m is m itself. -/
def FirstHolds (m : Message) (l : List Message) : Prop :=
  ∃ a b, l = a ++ m :: b ∧ m.id ∉ msgIds a

/-- Two lists that agree everywhere except possibly at the first position
carrying the id mid (where both carry that id). -/
def DiffAtFirst (mid : String) (w w' : List Message) : Prop :=
  w = w' ∨ ∃ a x x' b, w = a ++ x :: b ∧ w' = a ++ x' :: b
    ∧ x.id = mid ∧ x'.id = mid ∧ mid ∉ msgIds a

/-! ## Claim-side predicate and concrete inputs -/

/-- The claim C10 reading of a line beginning with a bullet or a numbering
marker, phrased from the claim rather than from the source (the source
filter is isTipLine): a bullet, a dash, or a leading digit. -/
def claimBulletOrNumbering (l : String) : Bool :=
  strStartsWith l "•" || strStartsWith l "-" ||
    (match l.data with
     | [] => false
     | c :: _ => c.isDigit)

/-- A concrete oracle whose every task output is empty. -/
def oracle0 : Oracle :=
  { fallacies := fun _ => []
    fallaciesText := fun _ => ""
    counterArgs := fun _ => ""
    questionsText := fun _ => ""
    score := fun _ => ⟨0, 0, 0, 0, 0, 0, ""⟩
    scoreText := fun _ => ""
    coachReport := "" }

/-- A concrete oracle with a non-empty final report. -/
def oracle1 : Oracle :=
  { oracle0 with coachReport := "Practice steelmanning. - Cite evidence." }

/-- A fallacy report whose severity is outside the documented set. -/
def badFallacy : Fallacy :=
  ⟨"Slippery Slope", "this is inevitable", "assumes an unbroken chain", "extreme"⟩

/-- An update carrying the out-of-range severity report. -/
def badUpdate : SessionUpdate :=
  { logical_fallacies_found := [badFallacy] }

/-! ## Engine run lemmas -/

lemma step_intake_s (o : Oracle) (e : EngState) (hf : e.frontier = [NodeId.intake]) :
    (step o e).session.round_number = 1
    ∧ (step o e).frontier = [NodeId.fallacy_detector]
    ∧ (step o e).session.verdict = e.session.verdict
    ∧ (step o e).session.coaching_tips = e.session.coaching_tips := by
  obtain ⟨s, f⟩ := e
  replace hf : f = [NodeId.intake] := hf
  subst hf
  refine ⟨?_, ?_, ?_, ?_⟩ <;>
    simp [step, foldStep, nextFrontier, outTargets, successors, conditionalSources,
      dedupNodes, dedupNodesFrom, branchTarget, should_continue, applyUpdate, nodeUpdate,
      intake_node, _append]

lemma step_fallacy_s (o : Oracle) (e : EngState) (hf : e.frontier = [NodeId.fallacy_detector]) :
    (step o e).session.round_number = e.session.round_number
    ∧ (step o e).frontier = fanOutGroup
    ∧ (step o e).session.verdict = e.session.verdict
    ∧ (step o e).session.coaching_tips = e.session.coaching_tips := by
  obtain ⟨s, f⟩ := e
  replace hf : f = [NodeId.fallacy_detector] := hf
  subst hf
  refine ⟨?_, ?_, ?_, ?_⟩ <;>
    simp [step, foldStep, nextFrontier, outTargets, successors, conditionalSources,
      dedupNodes, dedupNodesFrom, branchTarget, should_continue, applyUpdate, nodeUpdate,
      fallacy_detector_node, fanOutGroup, _append]

lemma step_trio_s (o : Oracle) (e : EngState) (hf : e.frontier = fanOutGroup) :
    (step o e).session.round_number = e.session.round_number
    ∧ (step o e).frontier =
        (if e.session.round_number ≥ MAX_ROUNDS then [NodeId.final_coach]
         else [NodeId.increment_round])
    ∧ (step o e).session.verdict = e.session.verdict
    ∧ (step o e).session.coaching_tips = e.session.coaching_tips := by
  obtain ⟨s, f⟩ := e
  replace hf : f = fanOutGroup := hf
  subst hf
  by_cases hc : s.round_number ≥ MAX_ROUNDS <;>
    refine ⟨?_, ?_, ?_, ?_⟩ <;>
      simp [step, foldStep, nextFrontier, outTargets, successors, conditionalSources,
        dedupNodes, dedupNodesFrom, branchTarget, should_continue, applyUpdate, nodeUpdate,
        devil_advocate_node, socratic_questioner_node, argument_scorer_node,
        fanOutGroup, _append, hc]

lemma step_incr_s (o : Oracle) (e : EngState) (hf : e.frontier = [NodeId.increment_round]) :
    (step o e).session.round_number = e.session.round_number + 1
    ∧ (step o e).frontier = [NodeId.fallacy_detector]
    ∧ (step o e).session.verdict = e.session.verdict
    ∧ (step o e).session.coaching_tips = e.session.coaching_tips := by
  obtain ⟨s, f⟩ := e
  replace hf : f = [NodeId.increment_round] := hf
  subst hf
  refine ⟨?_, ?_, ?_, ?_⟩ <;>
    simp [step, foldStep, nextFrontier, outTargets, successors, conditionalSources,
      dedupNodes, dedupNodesFrom, branchTarget, should_continue, applyUpdate, nodeUpdate,
      increment_round_node, _append]

lemma step_final_s (o : Oracle) (e : EngState) (hf : e.frontier = [NodeId.final_coach]) :
    (step o e).session.round_number = e.session.round_number
    ∧ (step o e).frontier = []
    ∧ (step o e).session.verdict = o.coachReport
    ∧ (step o e).session.coaching_tips
        = e.session.coaching_tips ++ (extractTips o.coachReport).take 5 := by
  obtain ⟨s, f⟩ := e
  replace hf : f = [NodeId.final_coach] := hf
  subst hf
  refine ⟨?_, ?_, ?_, ?_⟩ <;>
    simp [step, foldStep, nextFrontier, outTargets, successors, conditionalSources,
      dedupNodes, dedupNodesFrom, branchTarget, should_continue, applyUpdate, nodeUpdate,
      final_coach_node, _append]

lemma step_nil_s (o : Oracle) (e : EngState) (hf : e.frontier = []) : step o e = e := by
  obtain ⟨s, f⟩ := e
  replace hf : f = [] := hf
  subst hf
  rfl

lemma traj_succ (o : Oracle) (t p : String) (n : Nat) :
    traj o t p (n + 1) = step o (traj o t p n) := rfl

lemma roundOf_ge (i : Nat) (h : 9 ≤ i) : roundOf i = 3 := by
  unfold roundOf; split_ifs <;> omega

lemma frontierOf_ge (i : Nat) (h : 10 ≤ i) : frontierOf i = [] := by
  unfold frontierOf; split_ifs <;> first | rfl | (exfalso; omega)

lemma verdictOf_ge (o : Oracle) (i : Nat) (h : 10 ≤ i) : verdictOf o i = o.coachReport := by
  unfold verdictOf; split_ifs <;> first | rfl | (exfalso; omega)

lemma tipsOf_ge (o : Oracle) (i : Nat) (h : 10 ≤ i) :
    tipsOf o i = (extractTips o.coachReport).take 5 := by
  unfold tipsOf; split_ifs <;> first | rfl | (exfalso; omega)

lemma traj_proj (o : Oracle) (t p : String) (i : Nat) :
    (traj o t p i).session.round_number = roundOf i
    ∧ (traj o t p i).frontier = frontierOf i
    ∧ (traj o t p i).session.verdict = verdictOf o i
    ∧ (traj o t p i).session.coaching_tips = tipsOf o i := by
  induction i with
  | zero => exact ⟨rfl, rfl, rfl, rfl⟩
  | succ i ih =>
    obtain ⟨hr, hf, hv, ht⟩ := ih
    rw [traj_succ]
    unfold frontierOf at hf
    split_ifs at hf with h0 h1 h2 h3 h4
    · subst h0
      obtain ⟨r1, f1, v1, t1⟩ := step_intake_s o _ hf
      exact ⟨by rw [r1]; decide, by rw [f1]; decide, by rw [v1, hv]; rfl,
        by rw [t1, ht]; rfl⟩
    · obtain ⟨r1, f1, v1, t1⟩ := step_fallacy_s o _ hf
      rcases h1 with h | h | h <;> subst h <;>
        exact ⟨by rw [r1, hr]; decide, by rw [f1]; decide, by rw [v1, hv]; rfl,
          by rw [t1, ht]; rfl⟩
    · obtain ⟨r1, f1, v1, t1⟩ := step_trio_s o _ hf
      rw [hr] at f1
      rcases h2 with h | h | h <;> subst h <;>
        exact ⟨by rw [r1, hr]; decide, by rw [f1]; decide, by rw [v1, hv]; rfl,
          by rw [t1, ht]; rfl⟩
    · obtain ⟨r1, f1, v1, t1⟩ := step_incr_s o _ hf
      rcases h3 with h | h <;> subst h <;>
        exact ⟨by rw [r1, hr]; decide, by rw [f1]; decide, by rw [v1, hv]; rfl,
          by rw [t1, ht]; rfl⟩
    · subst h4
      obtain ⟨r1, f1, v1, t1⟩ := step_final_s o _ hf
      exact ⟨by rw [r1, hr]; decide, by rw [f1]; decide, by rw [v1]; rfl,
        by rw [t1, ht]; rfl⟩
    · rw [step_nil_s o _ hf]
      have hge : 10 ≤ i := by omega
      refine ⟨?_, ?_, ?_, ?_⟩
      · rw [hr, roundOf_ge i (by omega), roundOf_ge (i + 1) (by omega)]
      · rw [hf, frontierOf_ge (i + 1) (by omega)]
      · rw [hv, verdictOf_ge o i (by omega), verdictOf_ge o (i + 1) (by omega)]
      · rw [ht, tipsOf_ge o i (by omega), tipsOf_ge o (i + 1) (by omega)]

/-! ## Lemmas on the append-distinct-by-id reducer -/

lemma msgIds_cons (x : Message) (xs : List Message) :
    msgIds (x :: xs) = x.id :: msgIds xs := rfl

lemma upsert_append_not_mem :
    ∀ (a : List Message) (l : List Message) (m : Message), m.id ∉ msgIds a →
      upsert (a ++ l) m = a ++ upsert l m := by
  intro a
  induction a with
  | nil => intro l m _; rfl
  | cons x a ih =>
    intro l m h
    rw [msgIds_cons] at h
    simp only [List.mem_cons, not_or] at h
    obtain ⟨h1, h2⟩ := h
    have hx : ¬ x.id = m.id := fun he => h1 he.symm
    simp only [List.cons_append, upsert, if_neg hx, List.append_eq]
    rw [ih l m h2]

lemma upsert_append_mem :
    ∀ (a : List Message) (l : List Message) (m : Message), m.id ∈ msgIds a →
      upsert (a ++ l) m = upsert a m ++ l := by
  intro a
  induction a with
  | nil => intro l m h; simp [msgIds] at h
  | cons x a ih =>
    intro l m h
    by_cases hx : x.id = m.id
    · simp [upsert, hx]
    · have hmem : m.id ∈ msgIds a := by
        rw [msgIds_cons] at h
        rcases List.mem_cons.mp h with h | h
        · exact absurd h.symm hx
        · exact h
      simp only [List.cons_append, upsert, if_neg hx, List.append_eq]
      rw [ih l m hmem]

lemma msgIds_upsert :
    ∀ (l : List Message) (m : Message),
      msgIds (upsert l m) =
        if m.id ∈ msgIds l then msgIds l else msgIds l ++ [m.id] := by
  intro l
  induction l with
  | nil => intro m; simp [upsert, msgIds]
  | cons x xs ih =>
    intro m
    by_cases hx : x.id = m.id
    · simp [upsert, hx, msgIds]
    · have hne : ¬ m.id = x.id := fun he => hx he.symm
      simp only [upsert, if_neg hx, msgIds_cons]
      rw [ih m]
      by_cases hmem : m.id ∈ msgIds xs
      · rw [if_pos hmem, if_pos (List.mem_cons_of_mem _ hmem)]
      · have hm2 : ¬ m.id ∈ x.id :: msgIds xs := by
          simp only [List.mem_cons, not_or]
          exact ⟨hne, hmem⟩
        rw [if_neg hmem, if_neg hm2, List.cons_append]

lemma msgIds_upsert_mem (a : List Message) (v : Message) (h : v.id ∈ msgIds a) :
    msgIds (upsert a v) = msgIds a := by
  rw [msgIds_upsert, if_pos h]

lemma mem_msgIds_upsert (l : List Message) (m : Message) (i : String) (h : i ∈ msgIds l) :
    i ∈ msgIds (upsert l m) := by
  rw [msgIds_upsert]
  split_ifs with hm
  · exact h
  · exact List.mem_append_left _ h

lemma mem_msgIds_upsert_self (l : List Message) (m : Message) :
    m.id ∈ msgIds (upsert l m) := by
  rw [msgIds_upsert]
  split_ifs with hm
  · exact hm
  · exact List.mem_append_right _ (List.mem_singleton.mpr rfl)

lemma mem_msgIds_addMessages :
    ∀ (V : List Message) (l : List Message) (i : String), i ∈ msgIds l →
      i ∈ msgIds (addMessages l V) := by
  intro V
  induction V with
  | nil => intro l i h; exact h
  | cons v V ih =>
    intro l i h
    show i ∈ msgIds (addMessages (upsert l v) V)
    exact ih (upsert l v) i (mem_msgIds_upsert l v i h)

lemma first_decomp :
    ∀ (l : List Message) (i : String), i ∈ msgIds l →
      ∃ a x b, l = a ++ x :: b ∧ x.id = i ∧ i ∉ msgIds a := by
  intro l
  induction l with
  | nil => intro i h; simp [msgIds] at h
  | cons y ys ih =>
    intro i h
    by_cases hy : y.id = i
    · exact ⟨[], y, ys, rfl, hy, by simp [msgIds]⟩
    · have hmem : i ∈ msgIds ys := by
        simp only [msgIds, List.map_cons, List.mem_cons] at h
        rcases h with h | h
        · exact absurd h.symm hy
        · exact h
      obtain ⟨a, x, b, hdec, hxid, hnot⟩ := ih i hmem
      refine ⟨y :: a, x, b, by rw [hdec]; rfl, hxid, ?_⟩
      simp only [msgIds, List.map_cons, List.mem_cons, not_or]
      exact ⟨fun he => hy he.symm, hnot⟩

lemma firstHolds_upsert_self : ∀ (l : List Message) (m : Message), FirstHolds m (upsert l m) := by
  intro l
  induction l with
  | nil => intro m; exact ⟨[], [], rfl, by simp [msgIds]⟩
  | cons x xs ih =>
    intro m
    by_cases hx : x.id = m.id
    · exact ⟨[], xs, by simp [upsert, hx], by simp [msgIds]⟩
    · obtain ⟨a, b, hdec, hnot⟩ := ih m
      refine ⟨x :: a, b, ?_, ?_⟩
      · simp only [upsert, if_neg hx]
        rw [hdec]; rfl
      · simp only [msgIds, List.map_cons, List.mem_cons, not_or]
        exact ⟨fun he => hx he.symm, hnot⟩

lemma firstHolds_upsert_ne (l : List Message) (m v : Message)
    (hF : FirstHolds m l) (hv : v.id ≠ m.id) : FirstHolds m (upsert l v) := by
  obtain ⟨a, b, rfl, ha⟩ := hF
  by_cases hmem : v.id ∈ msgIds a
  · rw [upsert_append_mem a _ v hmem]
    exact ⟨upsert a v, b, rfl, by rw [msgIds_upsert_mem a v hmem]; exact ha⟩
  · rw [upsert_append_not_mem a _ v hmem]
    have hmv : ¬ m.id = v.id := fun he => hv he.symm
    exact ⟨a, upsert b v, by simp only [upsert, if_neg hmv], ha⟩

lemma upsert_of_firstHolds (l : List Message) (m : Message) (hF : FirstHolds m l) :
    upsert l m = l := by
  obtain ⟨a, b, rfl, ha⟩ := hF
  rw [upsert_append_not_mem a _ m ha]
  simp [upsert]

lemma firstHolds_addMessages :
    ∀ (V : List Message) (l : List Message) (m : Message), FirstHolds m l →
      (∀ v ∈ V, v.id ≠ m.id) → FirstHolds m (addMessages l V) := by
  intro V
  induction V with
  | nil => intro l m hF _; exact hF
  | cons v V ih =>
    intro l m hF hall
    show FirstHolds m (addMessages (upsert l v) V)
    exact ih (upsert l v) m
      (firstHolds_upsert_ne l m v hF (hall v (List.mem_cons_self v V)))
      (fun w hw => hall w (List.mem_cons_of_mem v hw))

lemma diff_upsert_ne (mid : String) (w w' : List Message) (v : Message)
    (hD : DiffAtFirst mid w w') (hv : v.id ≠ mid) :
    DiffAtFirst mid (upsert w v) (upsert w' v) := by
  rcases hD with rfl | ⟨a, x, x', b, rfl, rfl, hx, hx', ha⟩
  · exact Or.inl rfl
  · by_cases hmem : v.id ∈ msgIds a
    · rw [upsert_append_mem a _ v hmem, upsert_append_mem a _ v hmem]
      exact Or.inr ⟨upsert a v, x, x', b, rfl, rfl, hx, hx',
        by rw [msgIds_upsert_mem a v hmem]; exact ha⟩
    · rw [upsert_append_not_mem a _ v hmem, upsert_append_not_mem a _ v hmem]
      have hxv1 : ¬ x.id = v.id := by rw [hx]; exact fun he => hv he.symm
      have hxv2 : ¬ x'.id = v.id := by rw [hx']; exact fun he => hv he.symm
      exact Or.inr ⟨a, x, x', upsert b v,
        by simp only [upsert, if_neg hxv1],
        by simp only [upsert, if_neg hxv2], hx, hx', ha⟩

lemma diff_upsert_eq (mid : String) (w w' : List Message) (v : Message)
    (hD : DiffAtFirst mid w w') (hv : v.id = mid) :
    upsert w v = upsert w' v := by
  rcases hD with rfl | ⟨a, x, x', b, rfl, rfl, hx, hx', ha⟩
  · rfl
  · have hva : v.id ∉ msgIds a := by rw [hv]; exact ha
    rw [upsert_append_not_mem a _ v hva, upsert_append_not_mem a _ v hva]
    have h1 : x.id = v.id := by rw [hx, hv]
    have h2 : x'.id = v.id := by rw [hx', hv]
    simp only [upsert, if_pos h1, if_pos h2]

lemma addMessages_diff (mid : String) :
    ∀ (V : List Message) (w w' : List Message), DiffAtFirst mid w w' →
      (∃ v ∈ V, v.id = mid) → addMessages w V = addMessages w' V := by
  intro V
  induction V with
  | nil => intro w w' _ hex; simp at hex
  | cons v V ih =>
    intro w w' hD hex
    show addMessages (upsert w v) V = addMessages (upsert w' v) V
    by_cases hv : v.id = mid
    · rw [diff_upsert_eq mid w w' v hD hv]
    · obtain ⟨u, hu, huid⟩ := hex
      have hu' : u ∈ V := by
        rcases List.mem_cons.mp hu with rfl | h
        · exact absurd huid hv
        · exact h
      exact ih (upsert w v) (upsert w' v) (diff_upsert_ne mid w w' v hD hv) ⟨u, hu', huid⟩

lemma addMessages_idem : ∀ (U S : List Message),
    addMessages (addMessages S U) U = addMessages S U := by
  intro U
  induction U with
  | nil => intro S; rfl
  | cons m U ih =>
    intro S
    show addMessages (upsert (addMessages (upsert S m) U) m) U = addMessages (upsert S m) U
    by_cases hmem : ∃ v ∈ U, v.id = m.id
    · have hT : m.id ∈ msgIds (addMessages (upsert S m) U) :=
        mem_msgIds_addMessages U (upsert S m) m.id (mem_msgIds_upsert_self S m)
      obtain ⟨a, x, b, hdec, hxid, hnot⟩ := first_decomp _ m.id hT
      have hD : DiffAtFirst m.id (upsert (addMessages (upsert S m) U) m)
          (addMessages (upsert S m) U) := by
        refine Or.inr ⟨a, m, x, b, ?_, hdec, rfl, hxid, hnot⟩
        rw [hdec, upsert_append_not_mem a _ m hnot]
        simp only [upsert, if_pos hxid]
      calc addMessages (upsert (addMessages (upsert S m) U) m) U
          = addMessages (addMessages (upsert S m) U) U := addMessages_diff m.id U _ _ hD hmem
        _ = addMessages (upsert S m) U := ih (upsert S m)
    · push_neg at hmem
      have h1 : FirstHolds m (addMessages (upsert S m) U) :=
        firstHolds_addMessages U (upsert S m) m (firstHolds_upsert_self S m) hmem
      rw [upsert_of_firstHolds _ m h1]
      exact ih (upsert S m)

/-! ## Stationarity and resumption lemmas -/

lemma traj_stationary (o : Oracle) (t p : String) : ∀ k, traj o t p (10 + k) = traj o t p 10 := by
  intro k
  induction k with
  | zero => rfl
  | succ k ih =>
    show step o (traj o t p (10 + k)) = traj o t p 10
    rw [ih]
    exact step_nil_s o _ (by rw [(traj_proj o t p 10).2.1]; rfl)

lemma runN_traj (o : Oracle) (t p : String) :
    ∀ n k, runN o n (traj o t p k) = traj o t p (k + n) := by
  intro n
  induction n with
  | zero => intro k; rfl
  | succ n ih =>
    intro k
    show runN o n (step o (traj o t p k)) = traj o t p (k + (n + 1))
    rw [← traj_succ, ih (k + 1)]
    have h : k + 1 + n = k + (n + 1) := by omega
    rw [h]

lemma roundOf_mono (i : Nat) : roundOf i ≤ roundOf (i + 1) := by
  unfold roundOf; split_ifs <;> first | exact (by assumption : False).elim | omega

lemma roundOf_step (i : Nat) : roundOf (i + 1) ≤ roundOf i + 1 := by
  unfold roundOf; split_ifs <;> first | exact (by assumption : False).elim | omega

lemma roundOf_le (i : Nat) : roundOf i ≤ 3 := by
  unfold roundOf; split_ifs <;> omega

/-! ## The claims -/

/-- C1, counterexample: in the graph as wired (src/graph/debate_graph.py
lines 111-134), should_continue is attached to each of the three parallel
branches, so when the fan-out superstep of round 1 completes, the branch
decision is evaluated three times, not exactly once. -/
theorem cond_eval_three_not_one_cex :
    condEvalCount (traj oracle0 "t" "p" 2).frontier = 3
    ∧ condEvalCount (traj oracle0 "t" "p" 2).frontier ≠ 1 := by
  constructor
  · rw [(traj_proj oracle0 "t" "p" 2).2.1]; decide
  · rw [(traj_proj oracle0 "t" "p" 2).2.1]; decide

/-- C1, amended: should_continue is evaluated once per completed fan-out
member — zero or three times per superstep boundary, never once — all three
evaluations against the same folded session; increment_round and final_coach
are nevertheless each scheduled at most once per round, because superstep
targets are deduplicated. -/
theorem cond_eval_per_branch (o : Oracle) (t p : String) :
    (∀ i, condEvalCount (traj o t p i).frontier = 0
        ∨ condEvalCount (traj o t p i).frontier = 3)
    ∧ (∀ i, countNode NodeId.increment_round (traj o t p i).frontier ≤ 1)
    ∧ (∀ i, countNode NodeId.final_coach (traj o t p i).frontier ≤ 1)
    ∧ condEvalCount fanOutGroup = 3 := by
  refine ⟨?_, ?_, ?_, by decide⟩
  all_goals
    intro i
    rw [(traj_proj o t p i).2.1]
    unfold frontierOf
    split_ifs <;> decide

/-- C2: round_number starts at 0, is set to 1 by intake before the first
analysis superstep reads the session, never decreases, changes by at most 1
per superstep, is incremented by exactly 1 at each loop iteration, and never
exceeds MAX_ROUNDS. -/
theorem round_number_invariant (o : Oracle) (t p : String) :
    (traj o t p 0).session.round_number = 0
    ∧ (traj o t p 1).session.round_number = 1
    ∧ (traj o t p 1).frontier = [NodeId.fallacy_detector]
    ∧ (∀ i, (traj o t p i).session.round_number ≤ (traj o t p (i + 1)).session.round_number)
    ∧ (∀ i, (traj o t p (i + 1)).session.round_number ≤ (traj o t p i).session.round_number + 1)
    ∧ (traj o t p 4).session.round_number = (traj o t p 3).session.round_number + 1
    ∧ (traj o t p 7).session.round_number = (traj o t p 6).session.round_number + 1
    ∧ (∀ i, (traj o t p i).session.round_number ≤ MAX_ROUNDS) := by
  refine ⟨?_, ?_, ?_, ?_, ?_, ?_, ?_, ?_⟩
  · rw [(traj_proj o t p 0).1]; decide
  · rw [(traj_proj o t p 1).1]; decide
  · rw [(traj_proj o t p 1).2.1]; decide
  · intro i
    rw [(traj_proj o t p i).1, (traj_proj o t p (i + 1)).1]
    exact roundOf_mono i
  · intro i
    rw [(traj_proj o t p i).1, (traj_proj o t p (i + 1)).1]
    exact roundOf_step i
  · rw [(traj_proj o t p 4).1, (traj_proj o t p 3).1]; decide
  · rw [(traj_proj o t p 7).1, (traj_proj o t p 6).1]; decide
  · intro i
    rw [(traj_proj o t p i).1]
    exact roundOf_le i

/-- C3: after the fan-out fold of round 3 the conditional evaluation selects
finalize; the frontier goes straight to final_coach, increment_round never
runs again, and the final session keeps round_number 3 (not 4). -/
theorem max_rounds_finalize (o : Oracle) (t p : String) :
    should_continue (traj o t p 9).session = "finalize"
    ∧ (traj o t p 9).session.round_number = 3
    ∧ (traj o t p 9).frontier = [NodeId.final_coach]
    ∧ (traj o t p 10).session.round_number = 3
    ∧ (∀ k, (traj o t p (10 + k)).session.round_number = 3)
    ∧ (∀ i, countNode NodeId.increment_round (traj o t p (9 + i)).frontier = 0) := by
  refine ⟨?_, ?_, ?_, ?_, ?_, ?_⟩
  · unfold should_continue
    rw [(traj_proj o t p 9).1]; decide
  · rw [(traj_proj o t p 9).1]; decide
  · rw [(traj_proj o t p 9).2.1]; decide
  · rw [(traj_proj o t p 10).1]; decide
  · intro k
    rw [(traj_proj o t p (10 + k)).1, roundOf_ge (10 + k) (by omega)]
  · intro i
    rw [(traj_proj o t p (9 + i)).2.1]
    unfold frontierOf
    split_ifs <;> first | decide | (exfalso; omega)

/-- C4, counterexample: the reducers perform no shape validation — applying
an update whose fallacy report has severity outside the documented set
succeeds, appends the element unchanged, and changes the session; apply does
not fail and no MalformedUpdateError exists in the code. -/
theorem severity_not_validated_cex :
    (applyUpdate (initialSession "AGI" "pro") badUpdate).logical_fallacies_found = [badFallacy]
    ∧ (initialSession "AGI" "pro").logical_fallacies_found = []
    ∧ badFallacy.severity = "extreme"
    ∧ applyUpdate (initialSession "AGI" "pro") badUpdate ≠ initialSession "AGI" "pro" := by
  refine ⟨rfl, rfl, rfl, by decide⟩

/-- C4, amended: applyUpdate merges every update without validating element
shapes — the fallacy reports of the update (whatever their severity) are
appended unchanged, and the merge is total (no error path exists). -/
theorem apply_appends_without_validation (s : DebateSession) (u : SessionUpdate) :
    (applyUpdate s u).logical_fallacies_found
      = s.logical_fallacies_found ++ u.logical_fallacies_found
    ∧ (∀ f ∈ u.logical_fallacies_found, f ∈ (applyUpdate s u).logical_fallacies_found)
    ∧ (applyUpdate s u).round_number = u.round_number.getD s.round_number := by
  refine ⟨rfl, ?_, rfl⟩
  intro f hf
  show f ∈ s.logical_fallacies_found ++ u.logical_fallacies_found
  exact List.mem_append_right _ hf

/-- C5: if any member of the scheduled fan-out group fails, the step yields
an error naming a failing member of the frontier and the session after the
step is identical to the session before it — no update of the group, the
successful siblings' included, is folded. -/
theorem fanout_failure_atomic (o : Oracle) (failing : List NodeId) (e : EngState)
    (h : ∃ n ∈ e.frontier, n ∈ failing) :
    sessionAfterStepE o failing e = e.session
    ∧ ∃ n, stepE o failing e = Except.error n ∧ n ∈ e.frontier ∧ n ∈ failing := by
  obtain ⟨s, fr⟩ := e
  have hsome : (fr.find? (fun n => decide (n ∈ failing))).isSome := by
    rw [List.find?_isSome]
    obtain ⟨n, hn, hnf⟩ := h
    exact ⟨n, hn, by simpa using hnf⟩
  obtain ⟨m, hm⟩ := Option.isSome_iff_exists.mp hsome
  have hmem : m ∈ fr := List.mem_of_find?_eq_some hm
  have hmf : m ∈ failing := by simpa using List.find?_some hm
  cases fr with
  | nil => exact absurd hmem (List.not_mem_nil m)
  | cons a as =>
    refine ⟨?_, m, ?_, hmem, hmf⟩
    · simp [sessionAfterStepE, stepE, foldStepE, hm]
    · simp [stepE, foldStepE, hm]

/-- C5 witness: a concrete failing devil_advocate task in the fan-out
superstep of round 1 leaves the session untouched and surfaces an error. -/
theorem fanout_failure_atomic_witness :
    sessionAfterStepE oracle0 [NodeId.devil_advocate] (traj oracle0 "t" "p" 2)
      = (traj oracle0 "t" "p" 2).session
    ∧ ∃ n, stepE oracle0 [NodeId.devil_advocate] (traj oracle0 "t" "p" 2) = Except.error n
        ∧ n ∈ (traj oracle0 "t" "p" 2).frontier ∧ n ∈ [NodeId.devil_advocate] :=
  fanout_failure_atomic oracle0 [NodeId.devil_advocate] (traj oracle0 "t" "p" 2)
    ⟨NodeId.devil_advocate, by decide, by decide⟩

/-- C6: the fan-in fold of the three parallel members is deterministic — for
any fixed triple of member updates, folding a completion-ordered list of the
group in any of the six completion orders yields the same session, namely
the sequential application in declared node order. -/
theorem fanin_fold_deterministic (s : DebateSession) (u1 u2 u3 : SessionUpdate) :
    (foldInDeclaredOrder s [(NodeId.devil_advocate, u1), (NodeId.socratic_questioner, u2),
        (NodeId.argument_scorer, u3)]
      = applyUpdate (applyUpdate (applyUpdate s u1) u2) u3)
    ∧ (foldInDeclaredOrder s [(NodeId.devil_advocate, u1), (NodeId.argument_scorer, u3),
        (NodeId.socratic_questioner, u2)]
      = applyUpdate (applyUpdate (applyUpdate s u1) u2) u3)
    ∧ (foldInDeclaredOrder s [(NodeId.socratic_questioner, u2), (NodeId.devil_advocate, u1),
        (NodeId.argument_scorer, u3)]
      = applyUpdate (applyUpdate (applyUpdate s u1) u2) u3)
    ∧ (foldInDeclaredOrder s [(NodeId.socratic_questioner, u2), (NodeId.argument_scorer, u3),
        (NodeId.devil_advocate, u1)]
      = applyUpdate (applyUpdate (applyUpdate s u1) u2) u3)
    ∧ (foldInDeclaredOrder s [(NodeId.argument_scorer, u3), (NodeId.devil_advocate, u1),
        (NodeId.socratic_questioner, u2)]
      = applyUpdate (applyUpdate (applyUpdate s u1) u2) u3)
    ∧ (foldInDeclaredOrder s [(NodeId.argument_scorer, u3), (NodeId.socratic_questioner, u2),
        (NodeId.devil_advocate, u1)]
      = applyUpdate (applyUpdate (applyUpdate s u1) u2) u3) :=
  ⟨rfl, rfl, rfl, rfl, rfl, rfl⟩

/-- C7: the append-distinct-by-id reducer is idempotent — applying the same
incoming dialogue_history update twice yields the same history as applying
it once, because a message whose id is already present replaces the existing
entry in place instead of being appended again. -/
theorem add_messages_idempotent (existing incoming : List Message) :
    addMessages (addMessages existing incoming) incoming
      = addMessages existing incoming :=
  addMessages_idem incoming existing

/-- C8: the verdict is empty in every state before the terminal superstep
and non-empty exactly from the terminal superstep on (given the final report
text is non-empty); it is created empty, final_coach is the only node whose
update carries a verdict, and it is never revised afterward. -/
theorem verdict_iff_terminal (o : Oracle) (t p : String) (h : o.coachReport ≠ "") :
    (∀ i, (traj o t p i).session.verdict ≠ "" ↔ 10 ≤ i)
    ∧ (∀ i, i ≤ 9 → (traj o t p i).session.verdict = "")
    ∧ (∀ k, (traj o t p (10 + k)).session.verdict = o.coachReport)
    ∧ (initialSession t p).verdict = ""
    ∧ (∀ s, (nodeUpdate o s NodeId.intake).verdict = none)
    ∧ (∀ s, (nodeUpdate o s NodeId.fallacy_detector).verdict = none)
    ∧ (∀ s, (nodeUpdate o s NodeId.devil_advocate).verdict = none)
    ∧ (∀ s, (nodeUpdate o s NodeId.socratic_questioner).verdict = none)
    ∧ (∀ s, (nodeUpdate o s NodeId.argument_scorer).verdict = none)
    ∧ (∀ s, (nodeUpdate o s NodeId.increment_round).verdict = none)
    ∧ (∀ s, (nodeUpdate o s NodeId.final_coach).verdict = some o.coachReport) := by
  refine ⟨?_, ?_, ?_, rfl, fun s => rfl, fun s => rfl, fun s => rfl, fun s => rfl,
    fun s => rfl, fun s => rfl, fun s => rfl⟩
  · intro i
    rw [(traj_proj o t p i).2.2.1]
    unfold verdictOf
    split_ifs with hc
    · constructor
      · intro hne; exact absurd rfl hne
      · intro h10; exact absurd hc (by omega)
    · constructor
      · intro _; omega
      · intro _; exact h
  · intro i hi
    rw [(traj_proj o t p i).2.2.1]
    unfold verdictOf
    rw [if_pos hi]
  · intro k
    rw [(traj_proj o t p (10 + k)).2.2.1, verdictOf_ge o (10 + k) (by omega)]

/-- C8 witness: with a concrete non-empty final report, the verdict is
empty at checkpoint 3 and non-empty at the terminal checkpoint 10. -/
theorem verdict_iff_terminal_witness :
    ((traj oracle1 "t" "p" 10).session.verdict ≠ "" ↔ 10 ≤ 10)
    ∧ (traj oracle1 "t" "p" 3).session.verdict = "" :=
  ⟨(verdict_iff_terminal oracle1 "t" "p" (by decide)).1 10,
   (verdict_iff_terminal oracle1 "t" "p" (by decide)).2.1 3 (by omega)⟩

/-- C9: every engine state of the run is a checkpoint (traj is the sequence
of post-superstep saves); resuming from any checkpoint with the same oracle
and running the step loop to quiescence yields the same final session as the
uninterrupted run, and the terminal state is a fixed point of the step
function. -/
theorem checkpoint_resume_equiv (o : Oracle) (t p : String) :
    (∀ k, (runN o 10 (traj o t p k)).session = (traj o t p 10).session)
    ∧ step o (traj o t p 10) = traj o t p 10 := by
  constructor
  · intro k
    rw [runN_traj o t p 10 k]
    have h1 : k + 10 = 10 + k := by omega
    rw [h1, traj_stationary o t p k]
  · rw [← traj_succ o t p 10]
    exact traj_stationary o t p 1

/-- C10, counterexample: the tip filter of final_coach_node also keeps lines
beginning with the word Tip, which begin with neither a bullet nor a
numbering marker — the extracted update is not made only of bullet- or
number-marked lines. -/
theorem coaching_tips_marker_cex :
    "Tip one" ∈ extractTips "Tip one"
    ∧ claimBulletOrNumbering "Tip one" = false
    ∧ (final_coach_node "Tip one").coaching_tips = ["Tip one"] := by
  refine ⟨by decide, by decide, by decide⟩

/-- C10, amended: coaching_tips is written by final_coach alone, exactly
once, as the report lines whose stripped form starts with one of the six
starters (bullet, dash, the word Tip, or 1. 2. 3.), truncated to the first
five; every run state carries at most five tips. -/
theorem coaching_tips_amended (o : Oracle) (t p : String) :
    (traj o t p 10).session.coaching_tips = (extractTips o.coachReport).take 5
    ∧ (∀ k, (traj o t p (10 + k)).session.coaching_tips = (extractTips o.coachReport).take 5)
    ∧ (∀ i, (traj o t p i).session.coaching_tips.length ≤ 5)
    ∧ (final_coach_node o.coachReport).coaching_tips = (extractTips o.coachReport).take 5
    ∧ (∀ s, (nodeUpdate o s NodeId.intake).coaching_tips = [])
    ∧ (∀ s, (nodeUpdate o s NodeId.fallacy_detector).coaching_tips = [])
    ∧ (∀ s, (nodeUpdate o s NodeId.devil_advocate).coaching_tips = [])
    ∧ (∀ s, (nodeUpdate o s NodeId.socratic_questioner).coaching_tips = [])
    ∧ (∀ s, (nodeUpdate o s NodeId.argument_scorer).coaching_tips = [])
    ∧ (∀ s, (nodeUpdate o s NodeId.increment_round).coaching_tips = []) := by
  refine ⟨?_, ?_, ?_, rfl, fun s => rfl, fun s => rfl, fun s => rfl, fun s => rfl,
    fun s => rfl, fun s => rfl⟩
  · rw [(traj_proj o t p 10).2.2.2, tipsOf_ge o 10 (by omega)]
  · intro k
    rw [(traj_proj o t p (10 + k)).2.2.2, tipsOf_ge o (10 + k) (by omega)]
  · intro i
    rw [(traj_proj o t p i).2.2.2]
    unfold tipsOf
    split_ifs
    · simp
    · rw [List.length_take]; omega
